import Mathlib

/-!
Verification of the workflow-tracker scanning-and-graph-inference pipeline.

The definitions below are a shallow embedding of the Python sources:
  * `scanner/models.py`        — the data model (`WorkflowType`, `CodeLocation`,
    `WorkflowNode`, `WorkflowEdge`, `WorkflowGraph`, `ScanResult`);
  * `scanner/graph/builder.py` — the orchestrating builder (`build`,
    `_infer_workflow_edges`, `_infer_data_flow_edges`, scanner dispatch);
  * `scanner/workflow_analyzer.py` — the reachability traversal
    (`_get_reachable_nodes`);
  * `scanner/scanner/csharp_scanner.py` — C# table-name extraction
    (`_extract_table_name`) and the write-pattern line scan.

Python dataclass values become Lean structures; Python `list` becomes `List`;
a Python `dict` used only through insertion, `.get` and truthiness becomes an
association list; a Python `set` used only through membership becomes a list
with decidable membership.  Dataclass `==` (the equality used by `in` on a
list) is full structural equality, which is exactly `DecidableEq` on the
corresponding Lean structure.  Machine integers are `Nat` (line numbers and
counters are non-negative throughout the sources).
-/

/-- `WorkflowType` enum, models.py lines 8-19. -/
inductive WorkflowType where
  | DATABASE_READ
  | DATABASE_WRITE
  | API_CALL
  | FILE_READ
  | FILE_WRITE
  | MESSAGE_SEND
  | MESSAGE_RECEIVE
  | DATA_TRANSFORM
  | CACHE_READ
  | CACHE_WRITE
deriving DecidableEq

/-- `CodeLocation` dataclass, models.py lines 22-31. -/
structure CodeLocation where
  file_path : String
  line_number : Nat
  column : Option Nat := none
  end_line : Option Nat := none
deriving DecidableEq

/-- Values stored in the free-form `metadata` dict of nodes/edges/graphs.
The sources only ever store strings, non-negative ints and booleans there
(`pattern`, `distance`, `platform`, `source`, `has_table_attribute`, ...). -/
inductive MetaVal where
  | str (s : String)
  | num (n : Nat)
  | flag (b : Bool)
deriving DecidableEq

/-- A metadata dict: insertion-ordered key/value pairs. -/
abbrev MetaDict := List (String × MetaVal)

/-- `WorkflowNode` dataclass, models.py lines 34-61.  Equality is the
dataclass-generated structural equality over every field (the separately
defined `__hash__` by `id` is irrelevant to `in` on a Python list, which
compares with `==`). -/
structure WorkflowNode where
  id : String
  type : WorkflowType
  name : String := ""
  description : String := ""
  location : CodeLocation
  metadata : MetaDict := []
  code_snippet : Option String := none
  table_name : Option String := none
  query : Option String := none
  endpoint : Option String := none
  method : Option String := none
  file_path : Option String := none
  queue_name : Option String := none
  topic : Option String := none
deriving DecidableEq

/-- `WorkflowEdge` dataclass, models.py lines 64-73.  Equality is structural
over `(source, target, label, metadata)`. -/
structure WorkflowEdge where
  source : String
  target : String
  label : Option String := none
  metadata : MetaDict := []
deriving DecidableEq

/-- `WorkflowGraph` dataclass, models.py lines 76-110. -/
structure WorkflowGraph where
  nodes : List WorkflowNode := []
  edges : List WorkflowEdge := []
  metadata : MetaDict := []
deriving DecidableEq

/-- `WorkflowGraph.add_node`, models.py lines 83-86:
`if node not in self.nodes: self.nodes.append(node)`.  Python `in` on a list
uses `==`, i.e. full structural equality of the dataclass. -/
def WorkflowGraph.add_node (g : WorkflowGraph) (node : WorkflowNode) : WorkflowGraph :=
  if node ∈ g.nodes then g else { g with nodes := g.nodes ++ [node] }

/-- `WorkflowGraph.add_edge`, models.py lines 88-91:
`if edge not in self.edges: self.edges.append(edge)`. -/
def WorkflowGraph.add_edge (g : WorkflowGraph) (edge : WorkflowEdge) : WorkflowGraph :=
  if edge ∈ g.edges then g else { g with edges := g.edges ++ [edge] }

/-- `WorkflowGraph.get_node`, models.py lines 93-98: linear scan returning the
first node whose `id` matches, else `None`. -/
def WorkflowGraph.get_node (g : WorkflowGraph) (node_id : String) : Option WorkflowNode :=
  g.nodes.find? (fun n => n.id = node_id)

/-- `WorkflowGraph.get_nodes_by_type`, models.py lines 100-102. -/
def WorkflowGraph.get_nodes_by_type (g : WorkflowGraph) (workflow_type : WorkflowType) :
    List WorkflowNode :=
  g.nodes.filter (fun n => n.type = workflow_type)

/-- `WorkflowGraph.get_outgoing_edges`, models.py lines 104-106. -/
def WorkflowGraph.get_outgoing_edges (g : WorkflowGraph) (node_id : String) : List WorkflowEdge :=
  g.edges.filter (fun e => e.source = node_id)

/-- `WorkflowGraph.get_incoming_edges`, models.py lines 108-110. -/
def WorkflowGraph.get_incoming_edges (g : WorkflowGraph) (node_id : String) : List WorkflowEdge :=
  g.edges.filter (fun e => e.target = node_id)

/-! Concrete values for the edge-add and node-add claims. -/

/-- An edge A→B labeled "x". -/
def edgeAx : WorkflowEdge := { source := "A", target := "B", label := some "x" }

/-- An edge with the same ordered pair A→B but a different label "y". -/
def edgeAy : WorkflowEdge := { source := "A", target := "B", label := some "y" }

/-- A graph already containing `edgeAx`. -/
def graphWithAx : WorkflowGraph := { edges := [edgeAx] }

/-- Claim C3 as stated is false on the code: `edgeAy` has the same ordered
`(source, target)` pair as the stored `edgeAx` but a different label, and
`add_edge` (which deduplicates by full structural equality, not by the pair)
appends it, growing the edge list from 1 to 2. -/
theorem add_edge_pair_dedup_counterexample :
    edgeAy.source = edgeAx.source ∧ edgeAy.target = edgeAx.target ∧ edgeAx ∈ graphWithAx.edges ∧
      (graphWithAx.add_edge edgeAy).edges.length ≠ graphWithAx.edges.length := by
  decide

/-- Claim C3 amended: edge addition is an idempotent set-add keyed on full
structural equality of the edge `(source, target, label, metadata)`: adding an
edge equal in all fields to one already present leaves the number of edges
unchanged, while an edge that differs in any field — even one sharing the
ordered pair but with a different label or metadata — is appended. -/
theorem add_edge_structural_dedup :
    (∀ (g : WorkflowGraph) (e : WorkflowEdge), e ∈ g.edges →
      (g.add_edge e).edges.length = g.edges.length) ∧
    (∀ (g : WorkflowGraph) (e : WorkflowEdge), e ∉ g.edges →
      (g.add_edge e).edges.length = g.edges.length + 1) := by
  constructor
  · intro g e he
    simp [WorkflowGraph.add_edge, he]
  · intro g e he
    simp [WorkflowGraph.add_edge, he]

/-- Witness for the amended C3 at concrete inputs: re-adding the structurally
equal `edgeAx` keeps one edge, and adding the pair-equal but label-different
`edgeAy` grows the list to two. -/
theorem add_edge_structural_dedup_witness :
    (graphWithAx.add_edge edgeAx).edges.length = graphWithAx.edges.length ∧
      (graphWithAx.add_edge edgeAy).edges.length = graphWithAx.edges.length + 1 :=
  ⟨add_edge_structural_dedup.1 graphWithAx edgeAx (by decide),
   add_edge_structural_dedup.2 graphWithAx edgeAy (by decide)⟩

/-- A node with id "N" named "first". -/
def nodeN1 : WorkflowNode :=
  { id := "N", type := WorkflowType.DATABASE_READ, name := "first",
    location := { file_path := "f.cs", line_number := 1 } }

/-- A node with the same id "N" but a different name "second". -/
def nodeN2 : WorkflowNode :=
  { id := "N", type := WorkflowType.DATABASE_READ, name := "second",
    location := { file_path := "f.cs", line_number := 1 } }

/-- A graph already containing `nodeN1`. -/
def graphWithN1 : WorkflowGraph := { nodes := [nodeN1] }

/-- Claim C4 as stated is false on the code: `nodeN2` shares the id of the
stored `nodeN1` but differs in `name`, and `add_node` (which deduplicates by
full structural equality, not by id) appends it, growing the node list. -/
theorem add_node_id_dedup_counterexample :
    nodeN2.id = nodeN1.id ∧ nodeN1 ∈ graphWithN1.nodes ∧
      (graphWithN1.add_node nodeN2).nodes.length ≠ graphWithN1.nodes.length := by
  decide

/-- Claim C4 amended: node addition deduplicates on full structural equality:
adding a node equal in every field to one already present leaves the node list
unchanged in size, while a node that shares only the id of an existing node but
differs in any other field (type, name, location, metadata, ...) is appended. -/
theorem add_node_structural_dedup :
    (∀ (g : WorkflowGraph) (n : WorkflowNode), n ∈ g.nodes →
      (g.add_node n).nodes.length = g.nodes.length) ∧
    (∀ (g : WorkflowGraph) (n : WorkflowNode), n ∉ g.nodes →
      (g.add_node n).nodes.length = g.nodes.length + 1) := by
  constructor
  · intro g n hn
    simp [WorkflowGraph.add_node, hn]
  · intro g n hn
    simp [WorkflowGraph.add_node, hn]

/-- Witness for the amended C4 at concrete inputs: re-adding the structurally
equal `nodeN1` keeps one node, and adding the id-equal but name-different
`nodeN2` grows the list to two. -/
theorem add_node_structural_dedup_witness :
    (graphWithN1.add_node nodeN1).nodes.length = graphWithN1.nodes.length ∧
      (graphWithN1.add_node nodeN2).nodes.length = graphWithN1.nodes.length + 1 :=
  ⟨add_node_structural_dedup.1 graphWithN1 nodeN1 (by decide),
   add_node_structural_dedup.2 graphWithN1 nodeN2 (by decide)⟩

/-! ## Edge inference (builder.py `_infer_workflow_edges` / `_infer_data_flow_edges`)

The passes group `graph.nodes` into dicts-of-lists built by appending
(`nodes_by_file`, builder.py 374-381; `nodes_by_file_and_type`, 452-454).
A bucket of such a dict is exactly the insertion-ordered sublist of the nodes
with that key, i.e. a `filter`; the dict's keys enumerate in first-insertion
order, i.e. first-occurrence deduplication of the key sequence.  Python's
`sorted(nodes, key=...)` is a stable sort; `List.insertionSort` with the same
total preorder is also stable, hence produces the identical list. -/

/-- The keys of a dict built by inserting each node under its file path, in
first-insertion order (builder.py 374-381, 452-454). -/
def distinctFiles (nodes : List WorkflowNode) : List String :=
  nodes.foldl
    (fun acc n => if n.location.file_path ∈ acc then acc else acc ++ [n.location.file_path]) []

/-- The `nodes_by_file[f]` bucket: nodes of file `f` in insertion order. -/
def fileNodes (nodes : List WorkflowNode) (f : String) : List WorkflowNode :=
  nodes.filter (fun n => n.location.file_path = f)

/-- The `nodes_by_file_and_type[f][ty]` bucket (builder.py 452-454). -/
def typeNodes (nodes : List WorkflowNode) (f : String) (ty : WorkflowType) : List WorkflowNode :=
  nodes.filter (fun n => n.location.file_path = f ∧ n.type = ty)

/-- The comparison used by `sorted(nodes, key=lambda n: n.location.line_number)`. -/
def lineOrder (a b : WorkflowNode) : Prop :=
  a.location.line_number ≤ b.location.line_number

instance : DecidableRel lineOrder := fun a b => Nat.decLe _ _

instance : IsTotal WorkflowNode lineOrder :=
  ⟨fun a b => Nat.le_total a.location.line_number b.location.line_number⟩

instance : IsTrans WorkflowNode lineOrder :=
  ⟨fun _ _ _ => Nat.le_trans⟩

/-- Stable sort by line number, modelling `sorted(..., key=line_number)`
(builder.py 390, 457-459). -/
def sortByLine (l : List WorkflowNode) : List WorkflowNode :=
  l.insertionSort lineOrder

/-- The pairs `(sorted_nodes[i], sorted_nodes[i+1])` for `i in
range(len(sorted_nodes) - 1)` (builder.py 393-395). -/
def adjacentPairs (l : List WorkflowNode) : List (WorkflowNode × WorkflowNode) :=
  l.zip l.tail

/-- The proximity edge built at builder.py 400-405:
label `f"Sequential ({d} lines)"`, metadata `{'distance': d}`. -/
def seqEdge (a b : WorkflowNode) (d : Nat) : WorkflowEdge :=
  { source := a.id, target := b.id,
    label := some ("Sequential (" ++ toString d ++ " lines)"),
    metadata := [("distance", MetaVal.num d)] }

/-- The sequence of `graph.add_edge` calls made by the proximity pass
(builder.py 388-407): per file in dict order, per adjacent pair of the
line-sorted bucket, an edge when the line distance is within `t`. -/
def proximityCandidates (t : Nat) (nodes : List WorkflowNode) : List WorkflowEdge :=
  (distinctFiles nodes).flatMap (fun f =>
    (adjacentPairs (sortByLine (fileNodes nodes f))).filterMap (fun ab =>
      let d := ab.2.location.line_number - ab.1.location.line_number
      if d ≤ t then some (seqEdge ab.1 ab.2 d) else none))

/-- The proximity pass of `_infer_workflow_edges` (builder.py 371-420) with
threshold `t` (config `max_line_distance`, default 20). -/
def inferProximityEdges (t : Nat) (g : WorkflowGraph) : WorkflowGraph :=
  (proximityCandidates t g.nodes).foldl WorkflowGraph.add_edge g

/-- The "Data Ingestion" edge of builder.py 493-498. -/
def ingestionEdge (a w : WorkflowNode) : WorkflowEdge :=
  { source := a.id, target := w.id, label := some "Data Ingestion",
    metadata := [("pattern", MetaVal.str "api_to_db")] }

/-- The "Data Processing" edge of builder.py 538-543. -/
def processingEdge (r t : WorkflowNode) : WorkflowEdge :=
  { source := r.id, target := t.id, label := some "Data Processing",
    metadata := [("pattern", MetaVal.str "db_to_transform")] }

/-- The targets examined for a source node by the data-flow inner loop
(builder.py 475-490 and 521-536): on the line-sorted target bucket,
`dropWhile` is `bisect_left` for `min_line`, `takeWhile` is the
early-termination `break` past `max_line`, and the final `filter` is the
strictly-after check `line > min_line`. -/
def windowTargets (src : WorkflowNode) (window : Nat) (sortedTargets : List WorkflowNode) :
    List WorkflowNode :=
  ((sortedTargets.dropWhile
      (fun n => n.location.line_number < src.location.line_number)).takeWhile
      (fun n => n.location.line_number ≤ src.location.line_number + window)).filter
    (fun n => src.location.line_number < n.location.line_number)

/-- The candidate "Data Ingestion" edges, in the order the data-flow pass
examines them (builder.py 467-502): per file, per line-sorted API-call node,
per DB-write node in the 50-line window after it. -/
def ingestionCandidates (nodes : List WorkflowNode) : List WorkflowEdge :=
  (distinctFiles nodes).flatMap (fun f =>
    (sortByLine (typeNodes nodes f WorkflowType.API_CALL)).flatMap (fun a =>
      (windowTargets a 50 (sortByLine (typeNodes nodes f WorkflowType.DATABASE_WRITE))).map
        (ingestionEdge a)))

/-- The candidate "Data Processing" edges (builder.py 515-547): per file, per
line-sorted DB-read node, per transform node in the 30-line window after it. -/
def processingCandidates (nodes : List WorkflowNode) : List WorkflowEdge :=
  (distinctFiles nodes).flatMap (fun f =>
    (sortByLine (typeNodes nodes f WorkflowType.DATABASE_READ)).flatMap (fun r =>
      (windowTargets r 30 (sortByLine (typeNodes nodes f WorkflowType.DATA_TRANSFORM))).map
        (processingEdge r)))

/-- All candidates of `_infer_data_flow_edges` in examination order: the
ingestion loop runs before the processing loop and both share one
`existing_edges` set. -/
def dataFlowCandidates (nodes : List WorkflowNode) : List WorkflowEdge :=
  ingestionCandidates nodes ++ processingCandidates nodes

/-- The ordered pairs of the current edges, modelling the
`existing_edges = {(e.source, e.target) for e in graph.edges}` set
(builder.py 449); the set is used only through membership. -/
def edgePairs (edges : List WorkflowEdge) : List (String × String) :=
  edges.map (fun e => (e.source, e.target))

/-- One candidate step of `_infer_data_flow_edges` (builder.py 490-502,
536-547): skip when the ordered pair is already in `existing_edges`, else
`graph.add_edge(edge)` and record the pair. -/
def dataFlowStep (st : WorkflowGraph × List (String × String)) (e : WorkflowEdge) :
    WorkflowGraph × List (String × String) :=
  if (e.source, e.target) ∈ st.2 then st
  else (st.1.add_edge e, st.2 ++ [(e.source, e.target)])

/-- `_infer_data_flow_edges` (builder.py 426-553). -/
def inferDataFlowEdges (g : WorkflowGraph) : WorkflowGraph :=
  ((dataFlowCandidates g.nodes).foldl dataFlowStep (g, edgePairs g.edges)).1

/-- `_infer_workflow_edges` with the default configuration (both
`proximity_edges` and `data_flow_edges` enabled, builder.py 352-424):
the proximity pass followed by the data-flow pass. -/
def inferWorkflowEdges (t : Nat) (g : WorkflowGraph) : WorkflowGraph :=
  inferDataFlowEdges (inferProximityEdges t g)

/-! ## Basic lemmas about `add_edge` and folds of `add_edge` -/

theorem mem_add_edge_self (g : WorkflowGraph) (e : WorkflowEdge) : e ∈ (g.add_edge e).edges := by
  unfold WorkflowGraph.add_edge
  by_cases h : e ∈ g.edges
  · simpa [h]
  · simp [h]

theorem add_edge_mono {g : WorkflowGraph} {e : WorkflowEdge} (e' : WorkflowEdge)
    (h : e ∈ g.edges) : e ∈ (g.add_edge e').edges := by
  unfold WorkflowGraph.add_edge
  by_cases h' : e' ∈ g.edges
  · simpa [h']
  · simp [h']
    exact Or.inl h

theorem add_edge_nodes (g : WorkflowGraph) (e : WorkflowEdge) : (g.add_edge e).nodes = g.nodes := by
  unfold WorkflowGraph.add_edge
  by_cases h : e ∈ g.edges <;> simp [h]

theorem add_edge_of_mem {g : WorkflowGraph} {e : WorkflowEdge} (h : e ∈ g.edges) :
    g.add_edge e = g := by
  simp [WorkflowGraph.add_edge, h]

theorem foldl_add_edge_nodes (es : List WorkflowEdge) (g : WorkflowGraph) :
    (es.foldl WorkflowGraph.add_edge g).nodes = g.nodes := by
  induction es generalizing g with
  | nil => rfl
  | cons e es ih => simpa [List.foldl_cons] using (ih (g.add_edge e)).trans (add_edge_nodes g e)

theorem foldl_add_edge_mono {e : WorkflowEdge} (es : List WorkflowEdge) {g : WorkflowGraph}
    (h : e ∈ g.edges) : e ∈ (es.foldl WorkflowGraph.add_edge g).edges := by
  induction es generalizing g with
  | nil => exact h
  | cons e' es ih => exact ih (add_edge_mono e' h)

theorem foldl_add_edge_complete {e : WorkflowEdge} {es : List WorkflowEdge} (g : WorkflowGraph)
    (h : e ∈ es) : e ∈ (es.foldl WorkflowGraph.add_edge g).edges := by
  induction es generalizing g with
  | nil => cases h
  | cons e' es ih =>
    rcases List.mem_cons.mp h with rfl | h'
    · exact foldl_add_edge_mono es (mem_add_edge_self g e)
    · exact ih (g.add_edge e') h'

theorem foldl_add_edge_sound {e : WorkflowEdge} {es : List WorkflowEdge} {g : WorkflowGraph}
    (h : e ∈ (es.foldl WorkflowGraph.add_edge g).edges) : e ∈ g.edges ∨ e ∈ es := by
  induction es generalizing g with
  | nil => exact Or.inl h
  | cons e' es ih =>
    rcases ih h with h' | h'
    · unfold WorkflowGraph.add_edge at h'
      by_cases hmem : e' ∈ g.edges
      · rw [if_pos hmem] at h'
        exact Or.inl h'
      · rw [if_neg hmem] at h'
        rcases List.mem_append.mp h' with h'' | h''
        · exact Or.inl h''
        · simp at h''
          exact Or.inr (h'' ▸ List.mem_cons_self e' es)
    · exact Or.inr (List.mem_cons_of_mem e' h')

theorem foldl_add_edge_noop {es : List WorkflowEdge} {g : WorkflowGraph}
    (h : ∀ e ∈ es, e ∈ g.edges) : es.foldl WorkflowGraph.add_edge g = g := by
  induction es with
  | nil => rfl
  | cons e' es ih =>
    rw [List.foldl_cons, add_edge_of_mem (h e' (List.mem_cons_self e' es))]
    exact ih fun e he => h e (List.mem_cons_of_mem e' he)

/-! ## Membership characterizations of the candidate lists -/

theorem mem_distinctFiles_aux (l : List WorkflowNode) (acc : List String) (x : String) :
    x ∈ l.foldl
        (fun acc n => if n.location.file_path ∈ acc then acc
          else acc ++ [n.location.file_path]) acc ↔
      x ∈ acc ∨ x ∈ l.map (fun n => n.location.file_path) := by
  induction l generalizing acc with
  | nil => simp
  | cons n l ih =>
    rw [List.foldl_cons, ih]
    constructor
    · rintro (hstep | hmap)
      · by_cases hmem : n.location.file_path ∈ acc
        · rw [if_pos hmem] at hstep
          exact Or.inl hstep
        · rw [if_neg hmem] at hstep
          rcases List.mem_append.mp hstep with h | h
          · exact Or.inl h
          · simp at h
            simp [h]
      · simp [hmap]
    · rintro (hacc | hmap)
      · left
        by_cases hmem : n.location.file_path ∈ acc
        · rwa [if_pos hmem]
        · rw [if_neg hmem]
          exact List.mem_append_left _ hacc
      · rw [List.map_cons, List.mem_cons] at hmap
        rcases hmap with h | h
        · left
          by_cases hmem : n.location.file_path ∈ acc
          · rw [if_pos hmem]
            exact h ▸ hmem
          · rw [if_neg hmem]
            simp [h]
        · right
          exact h

theorem mem_distinctFiles {nodes : List WorkflowNode} {f : String} :
    f ∈ distinctFiles nodes ↔ f ∈ nodes.map (fun n => n.location.file_path) := by
  unfold distinctFiles
  rw [mem_distinctFiles_aux]
  simp

theorem mem_sortByLine {l : List WorkflowNode} {n : WorkflowNode} :
    n ∈ sortByLine l ↔ n ∈ l :=
  (List.perm_insertionSort lineOrder l).mem_iff

theorem sortByLine_sorted (l : List WorkflowNode) : (sortByLine l).Sorted lineOrder :=
  List.sorted_insertionSort lineOrder l

theorem mem_proximityCandidates {t : Nat} {nodes : List WorkflowNode} {e : WorkflowEdge} :
    e ∈ proximityCandidates t nodes ↔
      ∃ f a b, (a, b) ∈ adjacentPairs (sortByLine (fileNodes nodes f)) ∧
        b.location.line_number - a.location.line_number ≤ t ∧
        e = seqEdge a b (b.location.line_number - a.location.line_number) := by
  unfold proximityCandidates
  constructor
  · intro h
    rcases List.mem_flatMap.mp h with ⟨f, _, hfm⟩
    rcases List.mem_filterMap.mp hfm with ⟨ab, hab, hif⟩
    by_cases hd : ab.2.location.line_number - ab.1.location.line_number ≤ t
    · rw [if_pos hd] at hif
      exact ⟨f, ab.1, ab.2, by simpa using hab, hd, (Option.some_injective _ hif).symm⟩
    · rw [if_neg hd] at hif
      cases hif
  · rintro ⟨f, a, b, hab, hd, rfl⟩
    have haf : a ∈ fileNodes nodes f := mem_sortByLine.mp (List.of_mem_zip hab).1
    have hfile : f ∈ distinctFiles nodes := by
      rw [mem_distinctFiles]
      have := List.mem_filter.mp haf
      exact List.mem_map.mpr ⟨a, this.1, by simpa using this.2⟩
    refine List.mem_flatMap.mpr ⟨f, hfile, List.mem_filterMap.mpr ⟨(a, b), hab, ?_⟩⟩
    simp [hd]

/-- Claim C6: after the proximity pass with threshold `t` on a graph with no
pre-existing edges, an edge is present exactly when it is the
"Sequential (d lines)" edge of an adjacent pair of some file's line-sorted
node group whose line distance `d` is at most `t`; in particular no proximity
edge connects non-adjacent nodes of the sorted order. -/
theorem proximity_pass_adjacent_iff (g : WorkflowGraph) (t : Nat) (hempty : g.edges = []) :
    ∀ e : WorkflowEdge, e ∈ (inferProximityEdges t g).edges ↔
      ∃ f a b, (a, b) ∈ adjacentPairs (sortByLine (fileNodes g.nodes f)) ∧
        b.location.line_number - a.location.line_number ≤ t ∧
        e = seqEdge a b (b.location.line_number - a.location.line_number) := by
  intro e
  constructor
  · intro h
    rcases foldl_add_edge_sound h with h' | h'
    · rw [hempty] at h'
      cases h'
    · exact mem_proximityCandidates.mp h'
  · intro h
    exact foldl_add_edge_complete g (mem_proximityCandidates.mpr h)

/-- A node at line 10 of file "f.ts". -/
def exN10 : WorkflowNode :=
  { id := "f.ts:api:10", type := WorkflowType.API_CALL,
    location := { file_path := "f.ts", line_number := 10 } }

/-- A node at line 15 of file "f.ts". -/
def exN15 : WorkflowNode :=
  { id := "f.ts:db_write:15", type := WorkflowType.DATABASE_WRITE,
    location := { file_path := "f.ts", line_number := 15 } }

/-- A node at line 40 of file "f.ts". -/
def exN40 : WorkflowNode :=
  { id := "f.ts:db_read:40", type := WorkflowType.DATABASE_READ,
    location := { file_path := "f.ts", line_number := 40 } }

/-- A graph holding the three nodes at lines 10, 15 and 40 and no edges. -/
def exProxGraph : WorkflowGraph := { nodes := [exN10, exN15, exN40] }

/-- Witness for C6 at the concrete 10/15/40 example with threshold 20:
the edge 10→15 exists, neither 15→40 nor 10→40 exists, and the pass produces
exactly the single edge 10→15. -/
theorem proximity_pass_adjacent_iff_witness :
    exProxGraph.edges = [] ∧
      seqEdge exN10 exN15 5 ∈ (inferProximityEdges 20 exProxGraph).edges ∧
      seqEdge exN15 exN40 25 ∉ (inferProximityEdges 20 exProxGraph).edges ∧
      seqEdge exN10 exN40 30 ∉ (inferProximityEdges 20 exProxGraph).edges ∧
      (inferProximityEdges 20 exProxGraph).edges = [seqEdge exN10 exN15 5] :=
  ⟨rfl,
   (proximity_pass_adjacent_iff exProxGraph 20 rfl _).mpr
     ⟨"f.ts", exN10, exN15, by decide, by decide, rfl⟩,
   by decide, by decide, by decide⟩

/-! ## Lemmas about the data-flow fold -/

theorem mem_edgePairs_of_mem {edges : List WorkflowEdge} {e : WorkflowEdge} (h : e ∈ edges) :
    (e.source, e.target) ∈ edgePairs edges :=
  List.mem_map.mpr ⟨e, h, rfl⟩

theorem mem_edgePairs {edges : List WorkflowEdge} {p : String × String} :
    p ∈ edgePairs edges ↔ ∃ e ∈ edges, (e.source, e.target) = p := by
  unfold edgePairs
  rw [List.mem_map]

/-- The invariant of the data-flow fold state: every recorded pair is the
ordered pair of an edge already in the graph. -/
def pairsInv (st : WorkflowGraph × List (String × String)) : Prop :=
  ∀ p ∈ st.2, p ∈ edgePairs st.1.edges

theorem edgePairs_add_edge_mono {g : WorkflowGraph} {p : String × String} (e : WorkflowEdge)
    (h : p ∈ edgePairs g.edges) : p ∈ edgePairs (g.add_edge e).edges := by
  rcases mem_edgePairs.mp h with ⟨e0, he0, hpe⟩
  exact mem_edgePairs.mpr ⟨e0, add_edge_mono e he0, hpe⟩

theorem dataFlowStep_inv {st : WorkflowGraph × List (String × String)} {e : WorkflowEdge}
    (h : pairsInv st) : pairsInv (dataFlowStep st e) := by
  unfold dataFlowStep
  by_cases hp : (e.source, e.target) ∈ st.2
  · rwa [if_pos hp]
  · rw [if_neg hp]
    intro p hmem
    rcases List.mem_append.mp hmem with h' | h'
    · exact edgePairs_add_edge_mono e (h p h')
    · simp at h'
      exact h' ▸ mem_edgePairs_of_mem (mem_add_edge_self st.1 e)

theorem dataFlowStep_nodes (st : WorkflowGraph × List (String × String)) (e : WorkflowEdge) :
    (dataFlowStep st e).1.nodes = st.1.nodes := by
  unfold dataFlowStep
  by_cases hp : (e.source, e.target) ∈ st.2
  · rw [if_pos hp]
  · rw [if_neg hp]
    exact add_edge_nodes st.1 e

theorem dfFold_nodes (es : List WorkflowEdge) (st : WorkflowGraph × List (String × String)) :
    (es.foldl dataFlowStep st).1.nodes = st.1.nodes := by
  induction es generalizing st with
  | nil => rfl
  | cons e es ih => exact (ih (dataFlowStep st e)).trans (dataFlowStep_nodes st e)

theorem dfFold_edges_mono {e : WorkflowEdge} (es : List WorkflowEdge)
    {st : WorkflowGraph × List (String × String)} (h : e ∈ st.1.edges) :
    e ∈ (es.foldl dataFlowStep st).1.edges := by
  induction es generalizing st with
  | nil => exact h
  | cons e' es ih =>
    apply ih
    unfold dataFlowStep
    by_cases hp : (e'.source, e'.target) ∈ st.2
    · rwa [if_pos hp]
    · rw [if_neg hp]
      exact add_edge_mono e' h

theorem dfFold_pair_mono {p : String × String} (es : List WorkflowEdge)
    {st : WorkflowGraph × List (String × String)} (h : p ∈ edgePairs st.1.edges) :
    p ∈ edgePairs (es.foldl dataFlowStep st).1.edges := by
  rcases mem_edgePairs.mp h with ⟨e0, he0, hpe⟩
  exact mem_edgePairs.mpr ⟨e0, dfFold_edges_mono es he0, hpe⟩

theorem dfFold_pairs_complete {es : List WorkflowEdge}
    {st : WorkflowGraph × List (String × String)} (hinv : pairsInv st) :
    ∀ e ∈ es, (e.source, e.target) ∈ edgePairs (es.foldl dataFlowStep st).1.edges := by
  induction es generalizing st with
  | nil => intro e h; cases h
  | cons e' es ih =>
    intro e he
    rcases List.mem_cons.mp he with rfl | he'
    · rw [List.foldl_cons]
      apply dfFold_pair_mono
      unfold dataFlowStep
      by_cases hp : (e.source, e.target) ∈ st.2
      · rw [if_pos hp]
        exact hinv _ hp
      · rw [if_neg hp]
        exact mem_edgePairs_of_mem (mem_add_edge_self st.1 e)
    · exact ih (dataFlowStep_inv hinv) e he'

theorem dfFold_sound {e : WorkflowEdge} {es : List WorkflowEdge}
    {st : WorkflowGraph × List (String × String)}
    (h : e ∈ (es.foldl dataFlowStep st).1.edges) : e ∈ st.1.edges ∨ e ∈ es := by
  induction es generalizing st with
  | nil => exact Or.inl h
  | cons e' es ih =>
    rcases ih h with h' | h'
    · unfold dataFlowStep at h'
      by_cases hp : (e'.source, e'.target) ∈ st.2
      · rw [if_pos hp] at h'
        exact Or.inl h'
      · rw [if_neg hp] at h'
        unfold WorkflowGraph.add_edge at h'
        by_cases hmem : e' ∈ st.1.edges
        · rw [if_pos hmem] at h'
          exact Or.inl h'
        · rw [if_neg hmem] at h'
          rcases List.mem_append.mp h' with h'' | h''
          · exact Or.inl h''
          · simp at h''
            exact Or.inr (h'' ▸ List.mem_cons_self e' es)
    · exact Or.inr (List.mem_cons_of_mem e' h')

theorem dfFold_first_add {es : List WorkflowEdge} {st : WorkflowGraph × List (String × String)}
    {e : WorkflowEdge} (he : e ∈ es) (hnp : (e.source, e.target) ∉ st.2)
    (huniq : ∀ e' ∈ es, (e'.source, e'.target) = (e.source, e.target) → e' = e) :
    e ∈ (es.foldl dataFlowStep st).1.edges := by
  induction es generalizing st with
  | nil => cases he
  | cons e' es ih =>
    rw [List.foldl_cons]
    by_cases heq : e' = e
    · subst heq
      apply dfFold_edges_mono
      unfold dataFlowStep
      rw [if_neg hnp]
      exact mem_add_edge_self st.1 e'
    · have he2 : e ∈ es := by
        rcases List.mem_cons.mp he with rfl | h2
        · exact absurd rfl heq
        · exact h2
      have huniq2 : ∀ e'' ∈ es, (e''.source, e''.target) = (e.source, e.target) → e'' = e :=
        fun e'' h'' => huniq e'' (List.mem_cons_of_mem e' h'')
      unfold dataFlowStep
      by_cases hp : (e'.source, e'.target) ∈ st.2
      · rw [if_pos hp]
        exact ih he2 hnp huniq2
      · rw [if_neg hp]
        have hne : (e.source, e.target) ∉ st.2 ++ [(e'.source, e'.target)] := by
          intro hmem
          rcases List.mem_append.mp hmem with h' | h'
          · exact hnp h'
          · exact heq (huniq e' (List.mem_cons_self e' es) (List.mem_singleton.mp h').symm)
        exact ih he2 hne huniq2

theorem dfFold_noop {es : List WorkflowEdge} {st : WorkflowGraph × List (String × String)}
    (h : ∀ e ∈ es, (e.source, e.target) ∈ st.2) : es.foldl dataFlowStep st = st := by
  induction es with
  | nil => rfl
  | cons e' es ih =>
    rw [List.foldl_cons]
    have hstep : dataFlowStep st e' = st := by
      unfold dataFlowStep
      rw [if_pos (h e' (List.mem_cons_self e' es))]
    rw [hstep]
    exact ih fun e he => h e (List.mem_cons_of_mem e' he)

/-! ## Membership characterization of the data-flow candidates -/

theorem mem_typeNodes {nodes : List WorkflowNode} {f : String} {ty : WorkflowType}
    {n : WorkflowNode} :
    n ∈ typeNodes nodes f ty ↔ n ∈ nodes ∧ n.location.file_path = f ∧ n.type = ty := by
  unfold typeNodes
  rw [List.mem_filter]
  simp

theorem mem_takeWhile_line_of_sorted {l : List WorkflowNode} {w : WorkflowNode} {B : Nat}
    (hs : l.Sorted lineOrder) (hw : w ∈ l) (hB : w.location.line_number ≤ B) :
    w ∈ l.takeWhile (fun n => n.location.line_number ≤ B) := by
  induction l with
  | nil => cases hw
  | cons x xs ih =>
    rcases List.pairwise_cons.mp hs with ⟨hx, hxs⟩
    rcases List.mem_cons.mp hw with rfl | hw'
    · rw [List.takeWhile_cons_of_pos (by simpa using hB)]
      exact List.mem_cons_self _ _
    · have hxB : x.location.line_number ≤ B :=
        le_trans (hx w hw') hB
      rw [List.takeWhile_cons_of_pos (by simpa using hxB)]
      exact List.mem_cons_of_mem x (ih hxs hw')

theorem mem_dropWhile_line {l : List WorkflowNode} {w : WorkflowNode} {m : Nat}
    (hw : w ∈ l) (hge : ¬ w.location.line_number < m) :
    w ∈ l.dropWhile (fun n => n.location.line_number < m) := by
  have hsplit := List.takeWhile_append_dropWhile
    (p := fun n => decide (n.location.line_number < m)) (l := l)
  rw [← hsplit] at hw
  rcases List.mem_append.mp hw with h | h
  · exact absurd (by simpa using List.mem_takeWhile_imp h) hge
  · exact h

theorem mem_windowTargets {src : WorkflowNode} {window : Nat} {sortedT : List WorkflowNode}
    {w : WorkflowNode} (hsorted : sortedT.Sorted lineOrder) :
    w ∈ windowTargets src window sortedT ↔
      w ∈ sortedT ∧ src.location.line_number < w.location.line_number ∧
        w.location.line_number ≤ src.location.line_number + window := by
  unfold windowTargets
  constructor
  · intro h
    rcases List.mem_filter.mp h with ⟨htw, hgt⟩
    have hle : w.location.line_number ≤ src.location.line_number + window := by
      simpa using List.mem_takeWhile_imp htw
    have hdw : w ∈ sortedT.dropWhile (fun n => n.location.line_number < src.location.line_number) :=
      (List.takeWhile_sublist _).mem htw
    exact ⟨(List.dropWhile_sublist _).mem hdw, by simpa using hgt, hle⟩
  · rintro ⟨hmem, hgt, hle⟩
    have hdw : w ∈ sortedT.dropWhile
        (fun n => n.location.line_number < src.location.line_number) :=
      mem_dropWhile_line hmem (by omega)
    have hdws : (sortedT.dropWhile
        (fun n => n.location.line_number < src.location.line_number)).Sorted lineOrder :=
      hsorted.sublist (List.dropWhile_sublist _)
    have htw := mem_takeWhile_line_of_sorted hdws hdw hle
    exact List.mem_filter.mpr ⟨htw, by simpa using hgt⟩

/-- Every line-sorted type bucket is sorted. -/
theorem typeNodes_sorted (nodes : List WorkflowNode) (f : String) (ty : WorkflowType) :
    (sortByLine (typeNodes nodes f ty)).Sorted lineOrder :=
  sortByLine_sorted _

/-- Membership characterization of the common shape of both data-flow candidate
lists: an edge is a candidate exactly when it is `mk a w` for a source node `a`
of type `ty1` and a target node `w` of type `ty2` in the same file, with `w`
strictly after `a` and within `window` lines. -/
theorem mem_flowCandidates {ty1 ty2 : WorkflowType} {window : Nat}
    {mk : WorkflowNode → WorkflowNode → WorkflowEdge} {nodes : List WorkflowNode}
    {e : WorkflowEdge} :
    e ∈ (distinctFiles nodes).flatMap (fun f =>
        (sortByLine (typeNodes nodes f ty1)).flatMap (fun a =>
          (windowTargets a window (sortByLine (typeNodes nodes f ty2))).map (mk a))) ↔
      ∃ a w, a ∈ nodes ∧ w ∈ nodes ∧ a.type = ty1 ∧ w.type = ty2 ∧
        a.location.file_path = w.location.file_path ∧
        a.location.line_number < w.location.line_number ∧
        w.location.line_number ≤ a.location.line_number + window ∧ e = mk a w := by
  constructor
  · intro h
    rcases List.mem_flatMap.mp h with ⟨f, _, hfm⟩
    rcases List.mem_flatMap.mp hfm with ⟨a, ha, ham⟩
    rcases List.mem_map.mp ham with ⟨w, hw, rfl⟩
    rcases mem_typeNodes.mp (mem_sortByLine.mp ha) with ⟨hanodes, haf, haty⟩
    rcases (mem_windowTargets (typeNodes_sorted nodes f ty2)).mp hw with ⟨hwmem, hgt, hle⟩
    rcases mem_typeNodes.mp (mem_sortByLine.mp hwmem) with ⟨hwnodes, hwf, hwty⟩
    exact ⟨a, w, hanodes, hwnodes, haty, hwty, haf.trans hwf.symm, hgt, hle, rfl⟩
  · rintro ⟨a, w, hanodes, hwnodes, haty, hwty, hfile, hgt, hle, rfl⟩
    refine List.mem_flatMap.mpr ⟨a.location.file_path, ?_, ?_⟩
    · exact mem_distinctFiles.mpr (List.mem_map.mpr ⟨a, hanodes, rfl⟩)
    · refine List.mem_flatMap.mpr ⟨a, ?_, ?_⟩
      · exact mem_sortByLine.mpr (mem_typeNodes.mpr ⟨hanodes, rfl, haty⟩)
      · refine List.mem_map.mpr ⟨w, ?_, rfl⟩
        refine (mem_windowTargets (typeNodes_sorted nodes _ ty2)).mpr
          ⟨mem_sortByLine.mpr (mem_typeNodes.mpr ⟨hwnodes, hfile.symm, hwty⟩), hgt, hle⟩

theorem mem_ingestionCandidates {nodes : List WorkflowNode} {e : WorkflowEdge} :
    e ∈ ingestionCandidates nodes ↔
      ∃ a w, a ∈ nodes ∧ w ∈ nodes ∧ a.type = WorkflowType.API_CALL ∧
        w.type = WorkflowType.DATABASE_WRITE ∧
        a.location.file_path = w.location.file_path ∧
        a.location.line_number < w.location.line_number ∧
        w.location.line_number ≤ a.location.line_number + 50 ∧ e = ingestionEdge a w := by
  unfold ingestionCandidates
  exact mem_flowCandidates

theorem mem_processingCandidates {nodes : List WorkflowNode} {e : WorkflowEdge} :
    e ∈ processingCandidates nodes ↔
      ∃ r tr, r ∈ nodes ∧ tr ∈ nodes ∧ r.type = WorkflowType.DATABASE_READ ∧
        tr.type = WorkflowType.DATA_TRANSFORM ∧
        r.location.file_path = tr.location.file_path ∧
        r.location.line_number < tr.location.line_number ∧
        tr.location.line_number ≤ r.location.line_number + 30 ∧ e = processingEdge r tr := by
  unfold processingCandidates
  exact mem_flowCandidates

/-- When node ids are unique, two nodes of the graph with the same id are the
same node. -/
theorem node_id_inj {nodes : List WorkflowNode}
    (hid : (nodes.map WorkflowNode.id).Nodup) {a b : WorkflowNode}
    (ha : a ∈ nodes) (hb : b ∈ nodes) (h : a.id = b.id) : a = b :=
  List.inj_on_of_nodup_map hid ha hb h

/-- Claim C5: after the data-flow pass with the default 50-line window, every
(API-call, DB-write) pair of nodes in the same file with the write strictly
after the call and within the window has its ordered pair present in the
graph, and the "Data Ingestion" edge itself is added whenever that ordered
pair did not already exist; conversely every edge added by the pass with label
"Data Ingestion" comes from such an in-window pair, so no "Data Ingestion"
edge is added for a DB-write beyond the window.  Node ids are assumed unique
(the stated `id` invariant of the data model). -/
theorem data_flow_ingestion_edges (g : WorkflowGraph)
    (hid : (g.nodes.map WorkflowNode.id).Nodup) :
    (∀ a w : WorkflowNode, a ∈ g.nodes → w ∈ g.nodes →
      a.type = WorkflowType.API_CALL → w.type = WorkflowType.DATABASE_WRITE →
      a.location.file_path = w.location.file_path →
      a.location.line_number < w.location.line_number →
      w.location.line_number ≤ a.location.line_number + 50 →
      (a.id, w.id) ∈ edgePairs (inferDataFlowEdges g).edges ∧
        ((a.id, w.id) ∉ edgePairs g.edges →
          ingestionEdge a w ∈ (inferDataFlowEdges g).edges)) ∧
    (∀ e ∈ (inferDataFlowEdges g).edges, e ∉ g.edges → e.label = some "Data Ingestion" →
      ∃ a w, a ∈ g.nodes ∧ w ∈ g.nodes ∧ a.type = WorkflowType.API_CALL ∧
        w.type = WorkflowType.DATABASE_WRITE ∧
        a.location.file_path = w.location.file_path ∧
        a.location.line_number < w.location.line_number ∧
        w.location.line_number ≤ a.location.line_number + 50 ∧ e = ingestionEdge a w) := by
  have hinv : pairsInv (g, edgePairs g.edges) := fun p hp => hp
  constructor
  · intro a w ha hw haty hwty hfile hgt hle
    have hcand : ingestionEdge a w ∈ dataFlowCandidates g.nodes :=
      List.mem_append_left _
        (mem_ingestionCandidates.mpr ⟨a, w, ha, hw, haty, hwty, hfile, hgt, hle, rfl⟩)
    constructor
    · exact dfFold_pairs_complete hinv _ hcand
    · intro hnp
      have huniq : ∀ e' ∈ dataFlowCandidates g.nodes,
          (e'.source, e'.target) = ((ingestionEdge a w).source, (ingestionEdge a w).target) →
          e' = ingestionEdge a w := by
        intro e' he' hpair
        rcases List.mem_append.mp he' with hi | hp
        · rcases mem_ingestionCandidates.mp hi with
            ⟨a', w', ha', hw', haty', hwty', _, _, _, rfl⟩
          rcases Prod.mk.injEq .. ▸ hpair with ⟨hsa, hsw⟩
          have : a' = a := node_id_inj hid ha' ha hsa
          have : w' = w := node_id_inj hid hw' hw hsw
          simp_all
        · rcases mem_processingCandidates.mp hp with
            ⟨r, tr, hr, _, hrty, _, _, _, _, rfl⟩
          rcases Prod.mk.injEq .. ▸ hpair with ⟨hsa, _⟩
          have hra : r = a := node_id_inj hid hr ha hsa
          rw [hra, haty] at hrty
          cases hrty
      exact dfFold_first_add hcand hnp huniq
  · intro e he hnew hlabel
    rcases dfFold_sound he with h | h
    · exact absurd h hnew
    · rcases List.mem_append.mp h with hi | hp
      · exact mem_ingestionCandidates.mp hi
      · rcases mem_processingCandidates.mp hp with ⟨r, tr, _, _, _, _, _, _, _, rfl⟩
        simp [processingEdge] at hlabel

/-- An API-call node at line 5 of file "g.cs". -/
def exApi5 : WorkflowNode :=
  { id := "g.cs:api:5", type := WorkflowType.API_CALL,
    location := { file_path := "g.cs", line_number := 5 } }

/-- A DB-write node at line 30 of file "g.cs" (within the 50-line window). -/
def exDbw30 : WorkflowNode :=
  { id := "g.cs:db_write:30", type := WorkflowType.DATABASE_WRITE,
    location := { file_path := "g.cs", line_number := 30 } }

/-- A DB-write node at line 200 of file "g.cs" (beyond the 50-line window). -/
def exDbw200 : WorkflowNode :=
  { id := "g.cs:db_write:200", type := WorkflowType.DATABASE_WRITE,
    location := { file_path := "g.cs", line_number := 200 } }

/-- A graph with the API call at line 5 and DB-writes at lines 30 and 200. -/
def exFlowGraph : WorkflowGraph := { nodes := [exApi5, exDbw30, exDbw200] }

/-- Witness for C5 at the concrete example: the pass adds exactly the
"Data Ingestion" edge 5→30 and no edge to the DB-write at line 200. -/
theorem data_flow_ingestion_edges_witness :
    (exFlowGraph.nodes.map WorkflowNode.id).Nodup ∧
      ingestionEdge exApi5 exDbw30 ∈ (inferDataFlowEdges exFlowGraph).edges ∧
      (inferDataFlowEdges exFlowGraph).edges = [ingestionEdge exApi5 exDbw30] :=
  ⟨by decide,
   ((data_flow_ingestion_edges exFlowGraph (by decide)).1 exApi5 exDbw30
     (by decide) (by decide) (by decide) (by decide) (by decide) (by decide)
     (by decide)).2 (by decide),
   by decide⟩

/-! ## Idempotence of the edge-inference engine -/

theorem inferProximityEdges_nodes (t : Nat) (g : WorkflowGraph) :
    (inferProximityEdges t g).nodes = g.nodes :=
  foldl_add_edge_nodes _ g

theorem inferDataFlowEdges_nodes (g : WorkflowGraph) :
    (inferDataFlowEdges g).nodes = g.nodes :=
  dfFold_nodes _ _

theorem inferProximityEdges_complete {t : Nat} {g : WorkflowGraph} {e : WorkflowEdge}
    (h : e ∈ proximityCandidates t g.nodes) : e ∈ (inferProximityEdges t g).edges :=
  foldl_add_edge_complete g h

theorem inferDataFlowEdges_mono {g : WorkflowGraph} {e : WorkflowEdge} (h : e ∈ g.edges) :
    e ∈ (inferDataFlowEdges g).edges :=
  dfFold_edges_mono _ h

theorem inferDataFlowEdges_pairs_complete {g : WorkflowGraph} {e : WorkflowEdge}
    (h : e ∈ dataFlowCandidates g.nodes) :
    (e.source, e.target) ∈ edgePairs (inferDataFlowEdges g).edges :=
  dfFold_pairs_complete (fun _ hp => hp) e h

theorem inferProximityEdges_noop {t : Nat} {g : WorkflowGraph}
    (h : ∀ e ∈ proximityCandidates t g.nodes, e ∈ g.edges) :
    inferProximityEdges t g = g :=
  foldl_add_edge_noop h

theorem inferDataFlowEdges_noop {g : WorkflowGraph}
    (h : ∀ e ∈ dataFlowCandidates g.nodes, (e.source, e.target) ∈ edgePairs g.edges) :
    inferDataFlowEdges g = g := by
  unfold inferDataFlowEdges
  rw [dfFold_noop h]

/-- Claim C7: running the edge-inference engine (proximity pass followed by the
data-flow pass) a second time on a graph it has already processed leaves the
graph unchanged: the second proximity pass regenerates structurally equal
edges that the set-add skips, and the second data-flow pass finds every
candidate ordered pair already in the existing-pairs set. -/
theorem edge_inference_idempotent (t : Nat) (g : WorkflowGraph) :
    inferWorkflowEdges t (inferWorkflowEdges t g) = inferWorkflowEdges t g := by
  have hn1 : (inferProximityEdges t g).nodes = g.nodes := inferProximityEdges_nodes t g
  have hnodes : (inferWorkflowEdges t g).nodes = g.nodes := by
    unfold inferWorkflowEdges
    rw [inferDataFlowEdges_nodes, hn1]
  have hproxsub : ∀ e ∈ proximityCandidates t (inferWorkflowEdges t g).nodes,
      e ∈ (inferWorkflowEdges t g).edges := by
    intro e he
    rw [hnodes] at he
    exact inferDataFlowEdges_mono (inferProximityEdges_complete he)
  have hdfsub : ∀ e ∈ dataFlowCandidates (inferWorkflowEdges t g).nodes,
      (e.source, e.target) ∈ edgePairs (inferWorkflowEdges t g).edges := by
    intro e he
    rw [hnodes, ← hn1] at he
    exact inferDataFlowEdges_pairs_complete he
  show inferDataFlowEdges (inferProximityEdges t (inferWorkflowEdges t g)) = inferWorkflowEdges t g
  rw [inferProximityEdges_noop hproxsub, inferDataFlowEdges_noop hdfsub]

/-! ## Workflow analyzer reachability traversal
(`WorkflowAnalyzer._get_reachable_nodes`, workflow_analyzer.py 187-210)

The Python loop pops the queue head, skips already-visited ids, records the
node, and enqueues the existing targets of its outgoing edges that are not yet
visited (the current id was added to `visited` before the edge loop).
Termination follows from the measure below: a visit step strictly shrinks the
set of relevant unvisited ids, a skip step shrinks the queue. -/

/-- The nodes appended to the queue for the current node
(workflow_analyzer.py 201-208): targets of outgoing edges that resolve via
`get_node` and are not yet visited. -/
def enqueueTargets (g : WorkflowGraph) (current_id : String) (visited : List String) :
    List WorkflowNode :=
  (g.get_outgoing_edges current_id).filterMap (fun e =>
    match g.get_node e.target with
    | none => none
    | some t => if t.id ∈ visited then none else some t)

theorem enqueueTargets_length_le (g : WorkflowGraph) (current_id : String)
    (visited : List String) : (enqueueTargets g current_id visited).length ≤ g.edges.length :=
  le_trans (List.length_filterMap_le _ _) (List.length_filter_le _ _)

theorem mem_enqueueTargets {g : WorkflowGraph} {current_id : String} {visited : List String}
    {p : WorkflowNode} (hp : p ∈ enqueueTargets g current_id visited) :
    p ∈ g.nodes ∧ p.id ∉ visited := by
  unfold enqueueTargets at hp
  rcases List.mem_filterMap.mp hp with ⟨e, _, hmatch⟩
  rcases hfind : g.get_node e.target with _ | t
  · rw [hfind] at hmatch
    simp at hmatch
  · rw [hfind] at hmatch
    by_cases hv : t.id ∈ visited
    · simp [hv] at hmatch
    · simp [hv] at hmatch
      subst hmatch
      exact ⟨List.mem_of_find?_eq_some hfind, hv⟩

/-- Termination measure for the traversal: the number of relevant node ids not
yet visited (weighted so that growing the queue by at most `|edges|` entries
still shrinks the measure on a visit step) plus the queue length. -/
def bfsMeasure (g : WorkflowGraph) (queue : List WorkflowNode) (visited : List String) : Nat :=
  (((g.nodes.map WorkflowNode.id).toFinset ∪ (queue.map WorkflowNode.id).toFinset) \
      visited.toFinset).card * (g.edges.length + 1) + queue.length

theorem card_sdiff_insert_lt {U U2 V : Finset String} {x : String}
    (hU : U2 ⊆ U) (hx : x ∈ U) (hxV : x ∉ V) :
    (U2 \ insert x V).card < (U \ V).card := by
  have h1 : U2 \ insert x V ⊆ (U \ V).erase x := by
    intro y hy
    simp only [Finset.mem_sdiff, Finset.mem_insert, Finset.mem_erase] at *
    exact ⟨fun h => hy.2 (Or.inl h), hU hy.1, fun h => hy.2 (Or.inr h)⟩
  calc (U2 \ insert x V).card ≤ ((U \ V).erase x).card := Finset.card_le_card h1
    _ < (U \ V).card := Finset.card_erase_lt_of_mem (Finset.mem_sdiff.mpr ⟨hx, hxV⟩)

theorem bfsMeasure_skip (g : WorkflowGraph) (c : WorkflowNode) (rest : List WorkflowNode)
    (visited : List String) : bfsMeasure g rest visited < bfsMeasure g (c :: rest) visited := by
  unfold bfsMeasure
  have h1 : ((g.nodes.map WorkflowNode.id).toFinset ∪ (rest.map WorkflowNode.id).toFinset) \
      visited.toFinset ⊆
      ((g.nodes.map WorkflowNode.id).toFinset ∪
        ((c :: rest).map WorkflowNode.id).toFinset) \ visited.toFinset := by
    apply Finset.sdiff_subset_sdiff _ le_rfl
    apply Finset.union_subset_union le_rfl
    intro y hy
    simp only [List.map_cons, List.toFinset_cons, Finset.mem_insert] at *
    exact Or.inr hy
  calc _ ≤ _ := Nat.add_le_add_right (Nat.mul_le_mul_right _ (Finset.card_le_card h1)) _
    _ < _ := Nat.add_lt_add_left (by simp) _

theorem bfsMeasure_visit (g : WorkflowGraph) (c : WorkflowNode) (rest : List WorkflowNode)
    (visited : List String) (hniv : c.id ∉ visited) :
    bfsMeasure g (rest ++ enqueueTargets g c.id (c.id :: visited)) (c.id :: visited) <
      bfsMeasure g (c :: rest) visited := by
  unfold bfsMeasure
  set E := g.edges.length with hE
  set enq := enqueueTargets g c.id (c.id :: visited) with henqdef
  have henq : enq.length ≤ E := enqueueTargets_length_le g c.id (c.id :: visited)
  have hsub : ((g.nodes.map WorkflowNode.id).toFinset ∪
      ((rest ++ enq).map WorkflowNode.id).toFinset) ⊆
      ((g.nodes.map WorkflowNode.id).toFinset ∪
        ((c :: rest).map WorkflowNode.id).toFinset) := by
    apply Finset.union_subset Finset.subset_union_left
    intro y hy
    simp only [List.map_append, List.toFinset_append, Finset.mem_union, List.mem_toFinset,
      List.mem_map, List.map_cons, List.toFinset_cons, Finset.mem_insert] at *
    rcases hy with ⟨p, hp, rfl⟩ | ⟨p, hp, rfl⟩
    · exact Or.inr (Or.inr ⟨p, hp, rfl⟩)
    · exact Or.inl ⟨p, (mem_enqueueTargets hp).1, rfl⟩
  have hca : c.id ∈ (g.nodes.map WorkflowNode.id).toFinset ∪
      ((c :: rest).map WorkflowNode.id).toFinset := by
    simp
  have hcv : c.id ∉ visited.toFinset := by simpa using hniv
  have hlt := card_sdiff_insert_lt hsub hca hcv
  have hvis : (c.id :: visited).toFinset = insert c.id visited.toFinset := by simp
  rw [hvis]
  set m1' := (((g.nodes.map WorkflowNode.id).toFinset ∪
      ((rest ++ enq).map WorkflowNode.id).toFinset) \ insert c.id visited.toFinset).card
  set m1 := (((g.nodes.map WorkflowNode.id).toFinset ∪
      ((c :: rest).map WorkflowNode.id).toFinset) \ visited.toFinset).card
  have hlen : (rest ++ enq).length = rest.length + enq.length := List.length_append _ _
  calc m1' * (E + 1) + (rest ++ enq).length
      ≤ m1' * (E + 1) + (rest.length + E) := by
        rw [hlen]
        exact Nat.add_le_add_left (Nat.add_le_add_left henq _) _
    _ < (m1' + 1) * (E + 1) + rest.length := by ring_nf; omega
    _ ≤ m1 * (E + 1) + rest.length := Nat.add_le_add_right (Nat.mul_le_mul_right _ hlt) _
    _ < m1 * (E + 1) + (c :: rest).length := by simp

/-- The `while queue:` loop of `_get_reachable_nodes`
(workflow_analyzer.py 192-208): pop the head, skip visited ids, otherwise mark
visited, record the node and enqueue its unvisited existing targets. -/
def reachableLoop (g : WorkflowGraph) (queue : List WorkflowNode) (visited : List String) :
    List WorkflowNode :=
  match queue with
  | [] => []
  | c :: rest =>
    if c.id ∈ visited then reachableLoop g rest visited
    else
      c :: reachableLoop g (rest ++ enqueueTargets g c.id (c.id :: visited)) (c.id :: visited)
termination_by bfsMeasure g queue visited
decreasing_by
  · exact bfsMeasure_skip g c rest visited
  · exact bfsMeasure_visit g c rest visited (by assumption)

/-- `_get_reachable_nodes(start_node, visited)` (workflow_analyzer.py 187-210):
the loop started with `queue = [start_node]`.  `_build_workflow_chain` passes a
fresh empty `visited` set (line 166-170). -/
def get_reachable_nodes (g : WorkflowGraph) (start_node : WorkflowNode)
    (visited : List String) : List WorkflowNode :=
  reachableLoop g [start_node] visited

theorem reachableLoop_not_visited (g : WorkflowGraph) (queue : List WorkflowNode)
    (visited : List String) : ∀ n ∈ reachableLoop g queue visited, n.id ∉ visited := by
  induction queue, visited using reachableLoop.induct g with
  | case1 visited =>
    intro n hn
    rw [reachableLoop] at hn
    cases hn
  | case2 visited c rest hin ih =>
    intro n hn
    rw [reachableLoop, if_pos hin] at hn
    exact ih n hn
  | case3 visited c rest hin ih =>
    intro n hn
    rw [reachableLoop, if_neg hin] at hn
    rcases List.mem_cons.mp hn with rfl | hn'
    · exact hin
    · intro hv
      exact ih n hn' (List.mem_cons_of_mem _ hv)

theorem reachableLoop_nodup_ids (g : WorkflowGraph) (queue : List WorkflowNode)
    (visited : List String) : ((reachableLoop g queue visited).map WorkflowNode.id).Nodup := by
  induction queue, visited using reachableLoop.induct g with
  | case1 visited =>
    rw [reachableLoop]
    simp
  | case2 visited c rest hin ih =>
    rw [reachableLoop, if_pos hin]
    exact ih
  | case3 visited c rest hin ih =>
    rw [reachableLoop, if_neg hin]
    simp only [List.map_cons, List.nodup_cons]
    refine ⟨?_, ih⟩
    intro hmem
    rcases List.mem_map.mp hmem with ⟨n, hn, hna⟩
    exact reachableLoop_not_visited g _ _ n hn (by rw [hna]; exact List.mem_cons_self _ _)

theorem reachableLoop_mem (g : WorkflowGraph) (queue : List WorkflowNode)
    (visited : List String) :
    ∀ n ∈ reachableLoop g queue visited, n ∈ queue ∨ n ∈ g.nodes := by
  induction queue, visited using reachableLoop.induct g with
  | case1 visited =>
    intro n hn
    rw [reachableLoop] at hn
    cases hn
  | case2 visited c rest hin ih =>
    intro n hn
    rw [reachableLoop, if_pos hin] at hn
    rcases ih n hn with h | h
    · exact Or.inl (List.mem_cons_of_mem c h)
    · exact Or.inr h
  | case3 visited c rest hin ih =>
    intro n hn
    rw [reachableLoop, if_neg hin] at hn
    rcases List.mem_cons.mp hn with rfl | hn'
    · exact Or.inl (List.mem_cons_self _ _)
    · rcases ih n hn' with h | h
      · rcases List.mem_append.mp h with h' | h'
        · exact Or.inl (List.mem_cons_of_mem c h')
        · exact Or.inr (mem_enqueueTargets h').1
      · exact Or.inr h

/-- The node "A" of the two-node cycle example. -/
def cycNodeA : WorkflowNode :=
  { id := "A", type := WorkflowType.API_CALL,
    name := "handleClickA", location := { file_path := "c.ts", line_number := 1 } }

/-- The node "B" of the two-node cycle example. -/
def cycNodeB : WorkflowNode :=
  { id := "B", type := WorkflowType.DATABASE_WRITE,
    name := "saveB", location := { file_path := "c.ts", line_number := 2 } }

/-- A graph with the edge cycle A→B→A. -/
def cycleGraph : WorkflowGraph :=
  { nodes := [cycNodeA, cycNodeB],
    edges := [{ source := "A", target := "B" }, { source := "B", target := "A" }] }

/-- Claim C8: the analyzer's reachability traversal is a total function that
visits each node id at most once (the returned list has pairwise distinct
ids, for every graph, queue and visited set), and on the concrete cyclic graph
A→B→A the traversal started at A terminates with each of A and B visited
exactly once. -/
theorem reachability_cycle_safe :
    (∀ (g : WorkflowGraph) (queue : List WorkflowNode) (visited : List String),
      ((reachableLoop g queue visited).map WorkflowNode.id).Nodup) ∧
      get_reachable_nodes cycleGraph cycNodeA [] = [cycNodeA, cycNodeB] := by
  constructor
  · exact reachableLoop_nodup_ids
  · show reachableLoop cycleGraph [cycNodeA] [] = [cycNodeA, cycNodeB]
    rw [reachableLoop.eq_def]
    simp +decide [cycleGraph, cycNodeA, cycNodeB, enqueueTargets,
      WorkflowGraph.get_outgoing_edges, WorkflowGraph.get_node]
    rw [reachableLoop.eq_def]
    simp +decide [cycleGraph, cycNodeA, cycNodeB, enqueueTargets,
      WorkflowGraph.get_outgoing_edges, WorkflowGraph.get_node]
    rw [reachableLoop.eq_def]

/-- A node "D" whose only outgoing edge points at an id with no node. -/
def danglingNode : WorkflowNode :=
  { id := "D", type := WorkflowType.API_CALL, name := "onClickD",
    location := { file_path := "d.ts", line_number := 1 } }

/-- A graph containing `danglingNode` and a dangling edge D→ghost. -/
def danglingGraph : WorkflowGraph :=
  { nodes := [danglingNode], edges := [{ source := "D", target := "ghost" }] }

/-- Claim C10: the graph accepts dangling edges and the analyzer tolerates
them — `add_edge` stores an edge in every graph without checking that its
endpoints name nodes (and leaves the node list untouched), `get_node` returns
`none` for an id with no matching node, the traversal only ever returns nodes
from the initial queue or the graph's node list, and on the concrete graph
with edge D→ghost the traversal from D returns normally with just D. -/
theorem dangling_edges_tolerated :
    (∀ (g : WorkflowGraph) (e : WorkflowEdge),
      e ∈ (g.add_edge e).edges ∧ (g.add_edge e).nodes = g.nodes) ∧
    (∀ (g : WorkflowGraph) (i : String), (∀ n ∈ g.nodes, n.id ≠ i) → g.get_node i = none) ∧
    (∀ (g : WorkflowGraph) (queue : List WorkflowNode) (visited : List String),
      ∀ n ∈ reachableLoop g queue visited, n ∈ queue ∨ n ∈ g.nodes) ∧
    get_reachable_nodes danglingGraph danglingNode [] = [danglingNode] := by
  refine ⟨fun g e => ⟨mem_add_edge_self g e, add_edge_nodes g e⟩, ?_, reachableLoop_mem, ?_⟩
  · intro g i h
    unfold WorkflowGraph.get_node
    rw [List.find?_eq_none]
    intro n hn
    simpa using h n hn
  · show reachableLoop danglingGraph [danglingNode] [] = [danglingNode]
    rw [reachableLoop.eq_def]
    simp +decide [danglingGraph, danglingNode, enqueueTargets,
      WorkflowGraph.get_outgoing_edges, WorkflowGraph.get_node]
    rw [reachableLoop.eq_def]

/-- Witness for C10: `get_node` on the id "ghost", which no node of the
dangling-edge graph carries, returns `none`. -/
theorem dangling_edges_tolerated_witness :
    danglingGraph.get_node "ghost" = none :=
  dangling_edges_tolerated.2.1 danglingGraph "ghost" (by decide)

/-! ## C# scanner: table-name extraction (csharp_scanner.py 243-271)

The regular expressions involved are embedded as deterministic character
scans.  `re.search` scans match positions left to right and tries the
alternatives of `|` in order at each position; each `\w+` here is followed by
a character outside the class (or by nothing), so the greedy match is
deterministic and equals the maximal word-character run. -/

/-- Python `\w` (ASCII view: the sources match C# identifiers). -/
def isWordChar (c : Char) : Bool := c.isAlphanum || c = '_'

/-- Python `\s`. -/
def isSpaceChar (c : Char) : Bool := c.isWhitespace

/-- Consume a literal pattern from the front of the input, returning the
remainder on success. -/
def stripLit : List Char → List Char → Option (List Char)
  | [], l => some l
  | _ :: _, [] => none
  | p :: ps, c :: cs => if c = p then stripLit ps cs else none

/-- Alternative 1 of `DbSet<(\w+)>|_context\.(\w+)|_db\.(\w+)` at one
position. -/
def matchDbSetAt (l : List Char) : Option String :=
  match stripLit "DbSet<".toList l with
  | none => none
  | some rest =>
    let w := rest.takeWhile isWordChar
    if w ≠ [] ∧ (rest.dropWhile isWordChar).head? = some '>' then some (String.mk w) else none

/-- Alternative 2, `_context\.(\w+)`, at one position. -/
def matchContextAt (l : List Char) : Option String :=
  match stripLit "_context.".toList l with
  | none => none
  | some rest =>
    let w := rest.takeWhile isWordChar
    if w ≠ [] then some (String.mk w) else none

/-- Alternative 3, `_db\.(\w+)`, at one position. -/
def matchDbDotAt (l : List Char) : Option String :=
  match stripLit "_db.".toList l with
  | none => none
  | some rest =>
    let w := rest.takeWhile isWordChar
    if w ≠ [] then some (String.mk w) else none

/-- The alternation at one position, in the order of the pattern; the result
is `match.group(1) or match.group(2) or match.group(3)`
(csharp_scanner.py 251-253). -/
def matchEntityAt (l : List Char) : Option String :=
  (matchDbSetAt l).orElse fun _ => (matchContextAt l).orElse fun _ => matchDbDotAt l

/-- `re.search` of the entity pattern: leftmost matching position wins. -/
def searchEntity : List Char → Option String
  | [] => none
  | c :: t => (matchEntityAt (c :: t)).orElse fun _ => searchEntity t

/-- The backward-window pattern `var\s+\w+\s*=\s*\w+\.(\w+)`
(csharp_scanner.py 258) at one position. -/
def matchVarAt (l : List Char) : Option String :=
  match stripLit "var".toList l with
  | none => none
  | some r1 =>
    if r1.takeWhile isSpaceChar = [] then none
    else
      let r2 := r1.dropWhile isSpaceChar
      if r2.takeWhile isWordChar = [] then none
      else
        match (r2.dropWhile isWordChar).dropWhile isSpaceChar with
        | '=' :: r5 =>
          let r6 := r5.dropWhile isSpaceChar
          if r6.takeWhile isWordChar = [] then none
          else
            match r6.dropWhile isWordChar with
            | '.' :: r7 =>
              let w3 := r7.takeWhile isWordChar
              if w3 ≠ [] then some (String.mk w3) else none
            | _ => none
        | _ => none

/-- `re.search` of the backward-window pattern. -/
def searchVar : List Char → Option String
  | [] => none
  | c :: t => (matchVarAt (c :: t)).orElse fun _ => searchVar t

/-- Modelled from the spec: the `TableSchema` record produced by the schema
resolver.  It is imported from `models` and constructed by `detect_schemas`
throughout the sources, but its class definition is missing from the source
tree; §3 of the spec lists its fields as `{entity_name, table_name,
file_path, line_number, optional dbset_name, optional properties list,
metadata}`. -/
structure TableSchema where
  entity_name : String
  table_name : String
  file_path : String
  line_number : Nat
  dbset_name : Option String := none
  properties : Option (List String) := none
  metadata : MetaDict := []
deriving DecidableEq

/-- The schema registry: a dict keyed by entity and table names.  Only
insertion, `.get` and truthiness are used, so an association list suffices. -/
abbrev SchemaRegistry := List (String × TableSchema)

/-- Python `dict.get`. -/
def dictGet (d : SchemaRegistry) (k : String) : Option TableSchema :=
  (d.find? (fun kv => kv.1 = k)).map (fun kv => kv.2)

/-- The entity-name part of `_extract_table_name` (csharp_scanner.py 248-261):
search the current line for the entity pattern, else scan the backward window
`range(max(0, line_num - 5), line_num)` of the 0-indexed `all_lines` for the
`var` pattern, first matching line wins.  (`all_lines[i]` is always in range
in the source because `i < line_num ≤ len(all_lines)`; `getD` with a default
models the same total access.) -/
def extractEntityName (line : String) (all_lines : List String) (line_num : Nat) :
    Option String :=
  match searchEntity line.toList with
  | some e => some e
  | none =>
    (List.range' (line_num - 5) (line_num - (line_num - 5))).findSome?
      (fun i => searchVar (all_lines.getD i "").toList)

/-- `_extract_table_name` (csharp_scanner.py 243-271): resolve the extracted
entity name through the registry when one was extracted and the registry is
non-empty (`if entity_name and self.schema_registry`), keeping the raw name
when the registry holds no entry for it. -/
def extract_table_name (line : String) (all_lines : List String) (line_num : Nat)
    (registry : SchemaRegistry) : Option String :=
  match extractEntityName line all_lines line_num with
  | none => none
  | some e =>
    if registry ≠ [] then
      match dictGet registry e with
      | some schema => some schema.table_name
      | none => some e
    else some e

/-- Whether `\.Add\s*\(`-style patterns match at one position. -/
def matchDotCallAt (name : List Char) (l : List Char) : Bool :=
  match stripLit ('.' :: name) l with
  | none => false
  | some r => (r.dropWhile isSpaceChar).head? = some '('

/-- `re.search` of a `\.Name\s*\(` pattern. -/
def searchDotCall (name : String) : List Char → Bool
  | [] => false
  | c :: t => matchDotCallAt name.toList (c :: t) || searchDotCall name t

/-- `re.search` of a plain literal pattern. -/
def searchLit (pat : String) : List Char → Bool
  | [] => false
  | c :: t => (stripLit pat.toList (c :: t)).isSome || searchLit pat t

/-- The first matching `EF_WRITE_PATTERNS` entry for a line
(csharp_scanner.py 27-33, 110-111); the loop breaks on the first match. -/
def firstWritePattern (line : String) : Option String :=
  let l := line.toList
  if searchDotCall "Add" l then some "\\.Add\\s*\\(" else
  if searchDotCall "Update" l then some "\\.Update\\s*\\(" else
  if searchDotCall "Remove" l then some "\\.Remove\\s*\\(" else
  if searchLit ".SaveChanges" l then some "\\.SaveChanges" else
  if searchLit ".SaveChangesAsync" l then some "\\.SaveChangesAsync" else none

/-- `BaseScanner.extract_code_snippet` (base.py 63-79) with the default
2 context lines: `lines[max(0, i - 3) : min(len(lines), i + 2)]` joined. -/
def extract_code_snippet (all_lines : List String) (line_number : Nat) : String :=
  String.intercalate "\n"
    ((all_lines.drop (line_number - 3)).take
      (min all_lines.length (line_number + 2) - (line_number - 3)))

/-- The database-write arm of `_scan_database_operations` for the 1-indexed
line `i` (csharp_scanner.py 110-124): on the first matching write pattern a
`WorkflowNode` is created with the extracted (possibly registry-resolved,
possibly absent) table name; `f"DB Write: {table_name or 'Unknown'}"` falls
back to "Unknown". -/
def scan_db_write_line (file_path : String) (all_lines : List String) (i : Nat)
    (registry : SchemaRegistry) : Option WorkflowNode :=
  let line := all_lines.getD (i - 1) ""
  match firstWritePattern line with
  | none => none
  | some pat =>
    let table_name := extract_table_name line all_lines i registry
    some { id := file_path ++ ":db_write:" ++ toString i,
           type := WorkflowType.DATABASE_WRITE,
           name := "DB Write: " ++
             (match table_name with
              | none => "Unknown"
              | some s => if s = "" then "Unknown" else s),
           description := "Database write operation",
           location := { file_path := file_path, line_number := i },
           table_name := table_name,
           code_snippet := some (extract_code_snippet all_lines i),
           metadata := [("pattern", MetaVal.str pat)] }

theorem dictGet_ne_nil {registry : SchemaRegistry} {k : String} {s : TableSchema}
    (h : dictGet registry k = some s) : registry ≠ [] := by
  intro hnil
  rw [hnil] at h
  cases h

/-- Claim C9: schema-registry resolution enriches but never blocks.  When the
extraction yields an entity name that is a key of the registry, the resulting
table name is that entry's canonical `table_name`; when the name is not a key
(or the registry is empty) it is kept unchanged; and whenever a write pattern
matches a line, the node is created carrying whatever `_extract_table_name`
returned — resolution failure never prevents node creation. -/
theorem schema_registry_resolution (line : String) (all_lines : List String) (line_num : Nat)
    (registry : SchemaRegistry) :
    (∀ (e : String) (schema : TableSchema),
      extractEntityName line all_lines line_num = some e →
      dictGet registry e = some schema →
      extract_table_name line all_lines line_num registry = some schema.table_name) ∧
    (∀ e : String, extractEntityName line all_lines line_num = some e →
      dictGet registry e = none →
      extract_table_name line all_lines line_num registry = some e) ∧
    (∀ (file_path pat : String),
      firstWritePattern (all_lines.getD (line_num - 1) "") = some pat →
      ∃ node, scan_db_write_line file_path all_lines line_num registry = some node ∧
        node.table_name =
          extract_table_name (all_lines.getD (line_num - 1) "") all_lines line_num registry) := by
  refine ⟨?_, ?_, ?_⟩
  · intro e schema he hget
    unfold extract_table_name
    rw [he]
    dsimp only
    rw [if_pos (dictGet_ne_nil hget), hget]
  · intro e he hget
    unfold extract_table_name
    rw [he]
    dsimp only
    by_cases hr : registry ≠ []
    · rw [if_pos hr, hget]
    · rw [if_neg hr]
  · intro file_path pat hpat
    unfold scan_db_write_line
    dsimp only
    rw [hpat]
    exact ⟨_, rfl, rfl⟩

/-- The registry entry mapping entity `Order` to table `orders`. -/
def orderSchema : TableSchema :=
  { entity_name := "Order", table_name := "orders", file_path := "Models.cs",
    line_number := 10 }

/-- A registry containing only the `Order` entity. -/
def exRegistry : SchemaRegistry := [("Order", orderSchema)]

/-- A C# line whose extraction yields the registered entity `Order`. -/
def csLineOrder : String := "_context.Order.Add(item);"

/-- A C# line whose extraction yields the unregistered entity `Foo`. -/
def csLineFoo : String := "_context.Foo.Add(x);"

/-- Witness for C9 at concrete inputs: `Order` resolves to the canonical table
name "orders", the unregistered `Foo` is kept unchanged, and the write-pattern
line still produces a node carrying the resolved table name. -/
theorem schema_registry_resolution_witness :
    extract_table_name csLineOrder [csLineOrder] 1 exRegistry = some "orders" ∧
      extract_table_name csLineFoo [csLineFoo] 1 exRegistry = some "Foo" ∧
      ∃ node, scan_db_write_line "f.cs" [csLineOrder] 1 exRegistry = some node ∧
        node.table_name = extract_table_name csLineOrder [csLineOrder] 1 exRegistry :=
  ⟨(schema_registry_resolution csLineOrder [csLineOrder] 1 exRegistry).1 "Order" orderSchema
    (by decide) (by decide),
   (schema_registry_resolution csLineFoo [csLineFoo] 1 exRegistry).2.1 "Foo"
    (by decide) (by decide),
   (schema_registry_resolution csLineOrder [csLineOrder] 1 exRegistry).2.2 "f.cs"
    "\\.Add\\s*\\(" (by decide)⟩

/-! ## Builder scanner dispatch and the scan-file calling convention

`build` invokes every selected scanner as
`scanner.scan_file(file_path, schema_registry=result.schemas_discovered)`
(builder.py 108).  Of the five scanners only `CSharpScanner`
(csharp_scanner.py 60) and `AngularScanner` (angular_scanner.py 59) declare
`scan_file(self, file_path, schema_registry=None)`; `TypeScriptScanner`
(typescript_scanner.py 46), `ReactScanner` (react_scanner.py 67) and
`WPFScanner` (wpf_scanner.py 68) declare `scan_file(self, file_path)` only,
so the keyword call raises `TypeError`, which the `except` at builder.py
148-151 records in `errors` without incrementing `files_scanned`.  The model
below carries, per scanner, its `can_scan` predicate and whether its
`scan_file` signature accepts the `schema_registry` keyword. -/

/-- Python `str.endswith` over the character list (decidably computable). -/
def pyEndsWith (s suffix : String) : Bool :=
  List.isSuffixOf suffix.toList s.toList

/-- The dispatch-relevant signature of one scanner. -/
structure ScannerSig where
  scanner_name : String
  can_scan : String → Bool
  accepts_schema_registry : Bool

/-- `CSharpScanner`: `can_scan` = `.cs` suffix (csharp_scanner.py 56-58);
`scan_file(self, file_path, schema_registry=None)` (line 60). -/
def csharpScannerSig : ScannerSig :=
  { scanner_name := "CSharpScanner",
    can_scan := fun fp => pyEndsWith fp ".cs",
    accepts_schema_registry := true }

/-- `TypeScriptScanner`: suffixes `.ts/.js/.tsx/.jsx`
(typescript_scanner.py 42-44); `scan_file(self, file_path)` (line 46). -/
def typescriptScannerSig : ScannerSig :=
  { scanner_name := "TypeScriptScanner",
    can_scan := fun fp =>
      pyEndsWith fp ".ts" || pyEndsWith fp ".js" || pyEndsWith fp ".tsx" || pyEndsWith fp ".jsx",
    accepts_schema_registry := false }

/-- `ReactScanner`: suffixes `.tsx/.ts/.jsx/.js` (react_scanner.py 63-65);
`scan_file(self, file_path)` (line 67). -/
def reactScannerSig : ScannerSig :=
  { scanner_name := "ReactScanner",
    can_scan := fun fp =>
      pyEndsWith fp ".tsx" || pyEndsWith fp ".ts" || pyEndsWith fp ".jsx" || pyEndsWith fp ".js",
    accepts_schema_registry := false }

/-- `AngularScanner`: suffixes `.ts/.html/.component.ts/.component.html`
(angular_scanner.py 55-57); `scan_file(self, file_path, schema_registry=None)`
(line 59). -/
def angularScannerSig : ScannerSig :=
  { scanner_name := "AngularScanner",
    can_scan := fun fp =>
      pyEndsWith fp ".ts" || pyEndsWith fp ".html" ||
      pyEndsWith fp ".component.ts" || pyEndsWith fp ".component.html",
    accepts_schema_registry := true }

/-- `WPFScanner`: suffixes `.xaml/.xaml.cs` (wpf_scanner.py 64-66);
`scan_file(self, file_path)` (line 68). -/
def wpfScannerSig : ScannerSig :=
  { scanner_name := "WPFScanner",
    can_scan := fun fp => pyEndsWith fp ".xaml" || pyEndsWith fp ".xaml.cs",
    accepts_schema_registry := false }

/-- The builder's ordered scanner list (builder.py 28-34). -/
def builderScanners : List ScannerSig :=
  [csharpScannerSig, typescriptScannerSig, reactScannerSig, angularScannerSig, wpfScannerSig]

/-- `_get_scanner_for_file` (builder.py 325-337): first scanner whose
`can_scan` accepts the file. -/
def get_scanner_for_file (file_path : String) : Option ScannerSig :=
  builderScanners.find? (fun s => s.can_scan file_path)

/-- The scan-loop body for one file (builder.py 101-151) at the level of the
calling convention: a selected scanner whose `scan_file` does not accept the
`schema_registry` keyword raises `TypeError`, caught and recorded as an error
(no `files_scanned` increment); an accepting scanner scans the file and the
counter is incremented.  The state is `(files_scanned, errors)`. -/
def scanLoopStep (st : Nat × List String) (file_path : String) : Nat × List String :=
  match get_scanner_for_file file_path with
  | none => st
  | some s =>
    if s.accepts_schema_registry then (st.1 + 1, st.2)
    else (st.1, st.2 ++
      ["Error scanning " ++ file_path ++
        ": scan_file() got an unexpected keyword argument schema_registry"])

/-- Claim C2 is violated by the code: for the file "app.ts" the dispatcher
selects `TypeScriptScanner`, whose `scan_file` takes only `(self, file_path)`,
so the builder's keyword invocation raises `TypeError` and the loop records
the file in `errors` without counting it in `files_scanned`; the same holds
for "Main.xaml" via `WPFScanner`.  Only the C# and Angular scanners accept the
`schema_registry` keyword the spec's contract (and the builder's call)
require. -/
theorem scan_file_contract_violation :
    (get_scanner_for_file "app.ts").map ScannerSig.scanner_name = some "TypeScriptScanner" ∧
      (get_scanner_for_file "app.ts").map ScannerSig.accepts_schema_registry = some false ∧
      scanLoopStep (0, []) "app.ts" =
        (0, ["Error scanning app.ts: scan_file() got an unexpected keyword argument schema_registry"]) ∧
      (get_scanner_for_file "Main.xaml").map ScannerSig.scanner_name = some "WPFScanner" ∧
      (get_scanner_for_file "Main.xaml").map ScannerSig.accepts_schema_registry = some false ∧
      scanLoopStep (0, []) "Main.xaml" =
        (0, ["Error scanning Main.xaml: scan_file() got an unexpected keyword argument schema_registry"]) ∧
      (builderScanners.filter (fun s => s.accepts_schema_registry)).map
          ScannerSig.scanner_name = ["CSharpScanner", "AngularScanner"] := by
  refine ⟨?_, ?_, ?_, ?_, ?_, ?_, rfl⟩ <;> decide

/-! ## `build` and the missing `schemas_discovered` field -/

/-- `ScanResult` dataclass, models.py 113-121.  (`scan_time_seconds` is a
wall-clock float in the source; its value plays no role in any property
considered here, so it is carried as a `Nat`.) -/
structure ScanResult where
  repository_path : String
  graph : WorkflowGraph
  files_scanned : Nat := 0
  errors : List String := []
  warnings : List String := []
  scan_time_seconds : Nat := 0
deriving DecidableEq

/-- The dataclass fields of `ScanResult` (models.py 113-121).  Python
attribute access on any other name raises `AttributeError`. -/
def scanResultFields : List String :=
  ["repository_path", "graph", "files_scanned", "errors", "warnings", "scan_time_seconds"]

/-- Python attribute lookup on a `ScanResult` value. -/
def scanResultAttr (attr : String) : Except String Unit :=
  if scanResultFields.contains attr then Except.ok ()
  else Except.error ("AttributeError: ScanResult object has no attribute " ++ attr)

/-- `WorkflowGraphBuilder.build` (builder.py 38-217) on the file list produced
by `_find_files` (the filesystem walk is not modelled; the empty repository of
the claim yields the empty list).  After constructing the fresh `ScanResult`
(line 50) it calls `_discover_schemas` (line 86): each store into
`result.schemas_discovered` (line 249) sits inside the per-file `try/except`,
but the summary `len(result.schemas_discovered)` at line 275 (and again at
line 88) is unguarded — and `ScanResult` defines no such field, so the lookup
raises `AttributeError` out of `build` before the scan loop, for every input.
The (unreachable) scan loop is modelled by folding `scanLoopStep`. -/
def build (files_to_scan : List String) : Except String ScanResult := do
  let result : ScanResult := { repository_path := "", graph := {} }
  let _ ← scanResultAttr "schemas_discovered"
  let st := files_to_scan.foldl scanLoopStep (result.files_scanned, result.errors)
  Except.ok { result with files_scanned := st.1, errors := st.2 }

/-- Claim C1 is violated by the code: `ScanResult` has no `schemas_discovered`
field, yet `build` unconditionally evaluates `result.schemas_discovered`
during schema discovery, so `build` raises `AttributeError` instead of
returning a `ScanResult` — in particular on the empty repository (no matching
files), where the claim requires a normal return with `files_scanned == 0`,
no errors and a `schemas_discovered` registry. -/
theorem build_raises_attribute_error :
    (∀ files_to_scan : List String, build files_to_scan =
      Except.error "AttributeError: ScanResult object has no attribute schemas_discovered") ∧
      build [] =
        Except.error "AttributeError: ScanResult object has no attribute schemas_discovered" ∧
      "schemas_discovered" ∉ scanResultFields :=
  ⟨fun _ => rfl, rfl, by decide⟩

/-- Witness for the universally quantified part of the `build` failure: even a
repository containing one C# file makes `build` raise the same
`AttributeError`. -/
theorem build_raises_attribute_error_witness :
    build ["a.cs"] =
      Except.error "AttributeError: ScanResult object has no attribute schemas_discovered" :=
  build_raises_attribute_error.1 ["a.cs"]
